import Mathlib

/-!
Verification of the concurrency toolkit (package goroutine of tool-kit).

The development shallowly embeds the Go source:

* SafeExecutor.GoWithContext and handlePanic (goroutine safe-executor file,
  lines 579-620 and 659-680): a per-task semantics for panic recovery and
  statistics updates, plus a trace semantics for the counter invariants.
* CircuitBreaker.Execute (examples/basic/basic_example.go, lines 564-605).
* Pool.Submit / StopGracefully and the job-statistics update in
  Pool.executeJob (pool.go, lines 155-198 and 256-280).
* Retry.Execute and the backoff strategies (basic_example.go, lines 440-516).
* RateLimiter (basic_example.go, lines 641-698).

Go int64 counters are modelled as unbounded integers (no claim here concerns
wraparound); time.Duration and time.Time values are modelled as integer
nanosecond counts. Durations appearing in backoff/average computations are
modelled as naturals: the toolkit only ever feeds nonnegative durations into
them (time.Since of a monotonic clock), and Go integer division on
nonnegative operands agrees with Nat division. The repository targets
Go 1.23, where recover() returns a non-nil value for every panic (panic(nil)
is wrapped into a runtime.PanicNilError), so a caught panic is exactly an
execution of the recover-branch of the deferred block.
-/

namespace ToolKit

/-!
Safe Task Executor: per-task semantics.

SafeExecutor.GoWithContext increments TotalGoroutines and ActiveGoroutines
under the stats lock, then launches a goroutine whose deferred block
decrements ActiveGoroutines, calls recover() unconditionally, and either
routes the recovered value to handlePanic (PanicCount++, recovery handler
called once with the panic value, debug.Stack() and the goroutine id) or
increments CompletedCount. The goroutine body first checks the context: if
it is already cancelled the closure fn is skipped and the body returns
normally; otherwise fn runs.

Panic values are abstract tokens (Nat); the stack trace and goroutine id
produced at recovery time are ambient runtime data, passed as parameters.
-/

/-- Outcome of running the spawned closure fn: it either returns normally or
panics with some value (always non-nil once Go 1.23 wraps panic(nil)). -/
inductive FnOutcome where
  | normal : FnOutcome
  | panicsWith : Nat → FnOutcome
deriving DecidableEq, Repr

/-- Arguments of one invocation of the configured recovery handler:
the recovered panic value, the stack trace and the goroutine id. -/
structure HandlerCall where
  panicValue : Nat
  stack : Nat
  goroutineID : Nat
deriving DecidableEq, Repr

/-- Observable effect of one spawn through GoWithContext: counter deltas,
the recovery-handler invocations, and the panic (if any) that escapes the
goroutine. -/
structure TaskEffect where
  totalDelta : Nat
  completedDelta : Nat
  panicDelta : Nat
  handlerCalls : List HandlerCall
  propagatedPanic : Option Nat
deriving DecidableEq, Repr

/-- Panic produced by the goroutine body (lines 609-618): none when the
context was already cancelled (fn is skipped, body returns after a warning
log) or when fn returns normally; some v when fn panics with v. -/
def goroutineBody (cancelled : Bool) (outcome : FnOutcome) : Option Nat :=
  if cancelled then none
  else
    match outcome with
    | .normal => none
    | .panicsWith v => some v

/-- Go defer/recover semantics: a panic raised in the goroutine body escapes
the goroutine (terminating the process) unless the deferred block calls
recover(). The second argument records whether recover() was reached. -/
def propagationAfterDefer (bodyPanic : Option Nat) (recoverCalled : Bool) : Option Nat :=
  if recoverCalled then none else bodyPanic

/-- Semantics of one spawn through SafeExecutor.GoWithContext
(lines 579-620). The deferred block (lines 592-607) evaluates recover()
unconditionally, so recoverCalled is true on every path; the recover-branch
is handlePanic (lines 659-680), which increments PanicCount and calls the
recovery handler exactly once with (panicValue, stack, goroutineID); the
other branch increments CompletedCount. -/
def goWithContext (cancelled : Bool) (outcome : FnOutcome) (stack gid : Nat) : TaskEffect :=
  let bodyPanic := goroutineBody cancelled outcome
  let recoverCalled := true
  match bodyPanic with
  | some v =>
      { totalDelta := 1
        completedDelta := 0
        panicDelta := 1
        handlerCalls := [⟨v, stack, gid⟩]
        propagatedPanic := propagationAfterDefer bodyPanic recoverCalled }
  | none =>
      { totalDelta := 1
        completedDelta := 1
        panicDelta := 0
        handlerCalls := []
        propagatedPanic := propagationAfterDefer bodyPanic recoverCalled }

/-!
Safe Task Executor: trace semantics for the statistics counters.

Each spawned task mutates the Stats record in three separate critical
sections, in program order: (1) the spawn section in the caller
(TotalGoroutines++ and ActiveGoroutines++ together, lines 586-589);
(2) the exit section at the head of the deferred block
(ActiveGoroutines--, lines 594-596); (3) the record section
(CompletedCount++ or, inside handlePanic, PanicCount++). pendingRecord
counts tasks that are between sections (2) and (3). A schedule of any
number of tasks is exactly an interleaving in which every exit is preceded
by a matching spawn and every record by a matching exit, which the guards
encode. ResetStats is outside the scope of this trace model. -/
structure ExecCounters where
  total : Int
  active : Int
  pendingRecord : Int
  completed : Int
  panics : Int
deriving DecidableEq, Repr

/-- Counters of a fresh executor (NewSafeExecutor). -/
def ExecCounters.init : ExecCounters := ⟨0, 0, 0, 0, 0⟩

/-- One critical section of one spawned task, acting on the shared Stats. -/
inductive ExecStep : ExecCounters → ExecCounters → Prop where
  | spawn (s : ExecCounters) :
      ExecStep s { s with total := s.total + 1, active := s.active + 1 }
  | exitTask (s : ExecCounters) (h : 1 ≤ s.active) :
      ExecStep s { s with active := s.active - 1, pendingRecord := s.pendingRecord + 1 }
  | recordCompleted (s : ExecCounters) (h : 1 ≤ s.pendingRecord) :
      ExecStep s { s with pendingRecord := s.pendingRecord - 1, completed := s.completed + 1 }
  | recordPanic (s : ExecCounters) (h : 1 ≤ s.pendingRecord) :
      ExecStep s { s with pendingRecord := s.pendingRecord - 1, panics := s.panics + 1 }

/-- Stats values observable at some point of some schedule of spawned tasks. -/
def ExecReachable (s : ExecCounters) : Prop :=
  Relation.ReflTransGen ExecStep ExecCounters.init s

/-- Inductive invariant of the executor counters. -/
def ExecInv (s : ExecCounters) : Prop :=
  0 ≤ s.active ∧ 0 ≤ s.pendingRecord ∧ 0 ≤ s.completed ∧ 0 ≤ s.panics ∧
    s.total = s.active + s.pendingRecord + s.completed + s.panics

theorem execInv_init : ExecInv ExecCounters.init := by
  simp [ExecInv, ExecCounters.init]

theorem execInv_step {s t : ExecCounters} (hs : ExecInv s) (hst : ExecStep s t) :
    ExecInv t := by
  obtain ⟨h1, h2, h3, h4, h5⟩ := hs
  cases hst <;> dsimp only [ExecInv] at * <;> omega

theorem execInv_reachable {s : ExecCounters} (hs : ExecReachable s) : ExecInv s := by
  induction hs with
  | refl => exact execInv_init
  | tail _ hstep ih => exact execInv_step ih hstep

/-- C1: every panic raised inside a closure spawned through the Safe Task
Executor is caught in the deferred recover block and never escapes the
goroutine; the recovery handler is invoked exactly once per caught panic,
receiving the panic value, the stack trace and the goroutine id; and each
spawn increments exactly one of CompletedCount and PanicCount. -/
theorem safeExecutor_panic_isolated (cancelled : Bool) (outcome : FnOutcome)
    (stack gid : Nat) :
    (goWithContext cancelled outcome stack gid).propagatedPanic = none ∧
    (goWithContext cancelled outcome stack gid).completedDelta +
      (goWithContext cancelled outcome stack gid).panicDelta = 1 ∧
    (∀ v, goroutineBody cancelled outcome = some v →
      (goWithContext cancelled outcome stack gid).handlerCalls = [⟨v, stack, gid⟩] ∧
      (goWithContext cancelled outcome stack gid).panicDelta = 1 ∧
      (goWithContext cancelled outcome stack gid).completedDelta = 0) ∧
    (goroutineBody cancelled outcome = none →
      (goWithContext cancelled outcome stack gid).handlerCalls = [] ∧
      (goWithContext cancelled outcome stack gid).completedDelta = 1) := by
  cases cancelled <;> cases outcome <;>
    simp [goWithContext, goroutineBody, propagationAfterDefer]

/-- Witness for C1: a task that panics with value 5 propagates nothing, and
the handler is called exactly once with that value. -/
theorem safeExecutor_panic_isolated_witness :
    (goWithContext false (.panicsWith 5) 1 2).propagatedPanic = none ∧
    (goWithContext false (.panicsWith 5) 1 2).handlerCalls = [⟨5, 1, 2⟩] := by
  have h := safeExecutor_panic_isolated false (.panicsWith 5) 1 2
  exact ⟨h.1, (h.2.2.1 5 (by simp [goroutineBody])).1⟩

/-- C2: at every observation point of every schedule, ActiveGoroutines is
nonnegative and CompletedCount + PanicCount is at most TotalGoroutines; once
every spawned task has fully finished (no task is active or still between
its exit and its record section), CompletedCount + PanicCount equals
TotalGoroutines, which equals the number N of spawns in the schedule. -/
theorem executor_stats_invariant (s : ExecCounters) (hs : ExecReachable s) (N : Int) :
    (0 ≤ s.active ∧ s.completed + s.panics ≤ s.total) ∧
    (s.active = 0 → s.pendingRecord = 0 → s.total = N →
      s.active = 0 ∧ s.completed + s.panics = s.total ∧ s.total = N) := by
  have h := execInv_reachable hs
  obtain ⟨h1, h2, h3, h4, h5⟩ := h
  exact ⟨⟨h1, by omega⟩, fun ha hp hN => ⟨ha, by omega, hN⟩⟩

/-- Witness for C2, applying the invariant to the schedule
spawn, spawn, exit, recordCompleted, exit, recordPanic of N = 2 tasks. -/
theorem executor_stats_invariant_witness :
    (0 ≤ (⟨2, 0, 0, 1, 1⟩ : ExecCounters).active ∧
      (⟨2, 0, 0, 1, 1⟩ : ExecCounters).completed +
        (⟨2, 0, 0, 1, 1⟩ : ExecCounters).panics ≤
        (⟨2, 0, 0, 1, 1⟩ : ExecCounters).total) ∧
    ((⟨2, 0, 0, 1, 1⟩ : ExecCounters).active = 0 →
      (⟨2, 0, 0, 1, 1⟩ : ExecCounters).pendingRecord = 0 →
      (⟨2, 0, 0, 1, 1⟩ : ExecCounters).total = 2 →
      (⟨2, 0, 0, 1, 1⟩ : ExecCounters).active = 0 ∧
        (⟨2, 0, 0, 1, 1⟩ : ExecCounters).completed +
          (⟨2, 0, 0, 1, 1⟩ : ExecCounters).panics =
          (⟨2, 0, 0, 1, 1⟩ : ExecCounters).total ∧
        (⟨2, 0, 0, 1, 1⟩ : ExecCounters).total = 2) := by
  refine executor_stats_invariant ⟨2, 0, 0, 1, 1⟩ ?_ 2
  have s1 : ExecStep ⟨0, 0, 0, 0, 0⟩ ⟨1, 1, 0, 0, 0⟩ := by
    have := ExecStep.spawn ⟨0, 0, 0, 0, 0⟩
    simpa using this
  have s2 : ExecStep ⟨1, 1, 0, 0, 0⟩ ⟨2, 2, 0, 0, 0⟩ := by
    have := ExecStep.spawn ⟨1, 1, 0, 0, 0⟩
    simpa using this
  have s3 : ExecStep ⟨2, 2, 0, 0, 0⟩ ⟨2, 1, 1, 0, 0⟩ := by
    have := ExecStep.exitTask ⟨2, 2, 0, 0, 0⟩ (by norm_num)
    simpa using this
  have s4 : ExecStep ⟨2, 1, 1, 0, 0⟩ ⟨2, 1, 0, 1, 0⟩ := by
    have := ExecStep.recordCompleted ⟨2, 1, 1, 0, 0⟩ (by norm_num)
    simpa using this
  have s5 : ExecStep ⟨2, 1, 0, 1, 0⟩ ⟨2, 0, 1, 1, 0⟩ := by
    have := ExecStep.exitTask ⟨2, 1, 0, 1, 0⟩ (by norm_num)
    simpa using this
  have s6 : ExecStep ⟨2, 0, 1, 1, 0⟩ ⟨2, 0, 0, 1, 1⟩ := by
    have := ExecStep.recordPanic ⟨2, 0, 1, 1, 0⟩ (by norm_num)
    simpa using this
  exact Relation.ReflTransGen.tail
    (Relation.ReflTransGen.tail
      (Relation.ReflTransGen.tail
        (Relation.ReflTransGen.tail
          (Relation.ReflTransGen.tail (Relation.ReflTransGen.single s1) s2) s3) s4) s5) s6

/-!
CircuitBreaker (examples/basic/basic_example.go, lines 529-628).

Execute (lines 564-605) first reads the state under the read lock; in Open
it either rejects with the "circuit breaker is open" error (when at most
resetTimeout has elapsed since lastFailureTime) or writes state := HalfOpen
and proceeds; in Closed and HalfOpen it proceeds directly. It then invokes
the wrapped function and, under the write lock, processes the result: a
failure increments failureCount, sets lastFailureTime := now and then sets
state := Open when failureCount has reached maxFailures; a success
increments successCount and, when the state at the call was HalfOpen, sets
state := Closed and failureCount := 0. Calls are modelled sequentially (the
spec itself flags concurrent HalfOpen over-admission as out of scope);
timestamps are integer nanoseconds, so the Go test
time.Since(lastFailureTime) > resetTimeout reads now - lastFailureTime >
resetTimeout.
-/

/-- States of the circuit breaker (StateClosed, StateOpen, StateHalfOpen). -/
inductive CircuitState where
  | closed : CircuitState
  | opened : CircuitState
  | halfOpen : CircuitState
deriving DecidableEq, Repr

/-- Fields of the CircuitBreaker struct that Execute reads or writes. -/
structure CircuitBreaker where
  failureCount : Int
  successCount : Int
  maxFailures : Int
  resetTimeout : Int
  state : CircuitState
  lastFailureTime : Int
deriving DecidableEq, Repr

/-- NewCircuitBreaker (lines 551-561): zero counters, Closed state, zero
time.Time as lastFailureTime. -/
def newCircuitBreaker (maxFailures resetTimeout : Int) : CircuitBreaker :=
  ⟨0, 0, maxFailures, resetTimeout, .closed, 0⟩

/-- Outcome of CircuitBreaker.Execute as seen by the caller. -/
inductive CBOutcome where
  | ok : CBOutcome
  | circuitOpenErr : CBOutcome
  | fnErr : CBOutcome
deriving DecidableEq, Repr

/-- Result of one Execute call: the breaker afterwards, whether the wrapped
function was invoked, and the returned error (if any). -/
structure CBExecResult where
  cb : CircuitBreaker
  invoked : Bool
  outcome : CBOutcome
deriving DecidableEq, Repr

/-- Admission phase of Execute (lines 565-582): none means the call is
rejected with the "circuit breaker is open" error; some cb1 means the
wrapped function is invoked with the breaker in state cb1. -/
def CircuitBreaker.admitPhase (cb : CircuitBreaker) (now : Int) : Option CircuitBreaker :=
  match cb.state with
  | .opened =>
      if now - cb.lastFailureTime > cb.resetTimeout then
        some { cb with state := .halfOpen }
      else
        none
  | .halfOpen => some cb
  | .closed => some cb

/-- Result-processing phase of Execute (lines 586-602), entered with the
breaker as left by the admission phase. -/
def CircuitBreaker.settle (cb1 : CircuitBreaker) (fnFails : Bool) (now : Int) : CircuitBreaker :=
  if fnFails then
    let fc := cb1.failureCount + 1
    { cb1 with
        failureCount := fc
        lastFailureTime := now
        state := if fc ≥ cb1.maxFailures then .opened else cb1.state }
  else
    let cb2 := { cb1 with successCount := cb1.successCount + 1 }
    if cb2.state = .halfOpen then
      { cb2 with state := .closed, failureCount := 0 }
    else
      cb2

/-- CircuitBreaker.Execute (lines 564-605) on a call whose wrapped function
fails iff fnFails, issued at time now. -/
def CircuitBreaker.execute (cb : CircuitBreaker) (fnFails : Bool) (now : Int) : CBExecResult :=
  match cb.admitPhase now with
  | none => ⟨cb, false, .circuitOpenErr⟩
  | some cb1 => ⟨cb1.settle fnFails now, true, if fnFails then .fnErr else .ok⟩

/-- CircuitBreaker.Reset (lines 622-628). -/
def CircuitBreaker.resetBreaker (cb : CircuitBreaker) : CircuitBreaker :=
  { cb with failureCount := 0, successCount := 0, state := .closed }

/-- Sequential run of Execute calls, each given by (does fn fail, call time). -/
def CircuitBreaker.runCalls (cb : CircuitBreaker) : List (Bool × Int) → CircuitBreaker
  | [] => cb
  | (f, t) :: rest => ((cb.execute f t).cb).runCalls rest

/-- Number of failing calls in a call list. -/
def failuresIn : List (Bool × Int) → Int
  | [] => 0
  | (f, _) :: rest => (if f then 1 else 0) + failuresIn rest

/-- Length of the longest run of consecutive failing calls. -/
def maxFailRunAux : List Bool → Nat → Nat → Nat
  | [], cur, best => max cur best
  | b :: rest, cur, best =>
      if b then maxFailRunAux rest (cur + 1) best
      else maxFailRunAux rest 0 (max cur best)

/-- Longest run of consecutive failures in a list of call outcomes. -/
def maxFailRun (l : List Bool) : Nat := maxFailRunAux l 0 0

theorem failuresIn_nonneg (l : List (Bool × Int)) : 0 ≤ failuresIn l := by
  induction l with
  | nil => simp [failuresIn]
  | cons p rest ih =>
      obtain ⟨f, t⟩ := p
      by_cases hf : f <;> simp [failuresIn, hf] <;> omega

/-- Core accounting lemma for the Closed state: as long as the cumulative
failure count stays below maxFailures, the breaker stays Closed and its
failure counter equals the prior counter plus the number of failing calls;
successes do not reset it. -/
theorem runCalls_closed (calls : List (Bool × Int)) (cb : CircuitBreaker)
    (hstate : cb.state = .closed)
    (hlt : cb.failureCount + failuresIn calls < cb.maxFailures) :
    (cb.runCalls calls).state = .closed ∧
    (cb.runCalls calls).failureCount = cb.failureCount + failuresIn calls ∧
    (cb.runCalls calls).maxFailures = cb.maxFailures ∧
    (cb.runCalls calls).resetTimeout = cb.resetTimeout := by
  induction calls generalizing cb with
  | nil => simp [CircuitBreaker.runCalls, failuresIn, hstate]
  | cons p rest ih =>
      obtain ⟨f, t⟩ := p
      have hpos := failuresIn_nonneg rest
      cases f with
      | false =>
          have hstep : (cb.execute false t).cb =
              { cb with successCount := cb.successCount + 1 } := by
            simp [CircuitBreaker.execute, CircuitBreaker.admitPhase, hstate,
              CircuitBreaker.settle]
          obtain ⟨hs1, hs2, hs3, hs4⟩ := ih { cb with successCount := cb.successCount + 1 }
            (by simp [hstate])
            (by simp [failuresIn] at hlt ⊢; omega)
          refine ⟨?_, ?_, ?_, ?_⟩ <;>
            simp [CircuitBreaker.runCalls, hstep, failuresIn, hs1, hs2, hs3, hs4] at *
      | true =>
          have hfc : cb.failureCount + 1 < cb.maxFailures := by
            simp [failuresIn] at hlt
            omega
          have hnot : ¬ (cb.failureCount + 1 ≥ cb.maxFailures) := by omega
          have hstep : (cb.execute true t).cb =
              { cb with failureCount := cb.failureCount + 1,
                        lastFailureTime := t } := by
            simp [CircuitBreaker.execute, CircuitBreaker.admitPhase, hstate,
              CircuitBreaker.settle, hnot]
          obtain ⟨hs1, hs2, hs3, hs4⟩ :=
            ih { cb with failureCount := cb.failureCount + 1, lastFailureTime := t }
              (by simp [hstate])
              (by simp [failuresIn] at hlt ⊢; omega)
          refine ⟨?_, ?_, ?_, ?_⟩ <;>
            (simp [CircuitBreaker.runCalls, hstep, failuresIn, hs1, hs2, hs3, hs4] at *) <;>
            omega

/-- Appending call lists composes runCalls. -/
theorem runCalls_append (cb : CircuitBreaker) (l1 l2 : List (Bool × Int)) :
    cb.runCalls (l1 ++ l2) = (cb.runCalls l1).runCalls l2 := by
  induction l1 generalizing cb with
  | nil => simp [CircuitBreaker.runCalls]
  | cons p rest ih =>
      obtain ⟨f, t⟩ := p
      simp [CircuitBreaker.runCalls, ih]

/-- Counterexample to C3: with maxFailures = 2, the call sequence failure,
success, failure never contains two consecutive failures, yet it opens the
breaker, because a success in the Closed state does not reset the failure
counter (lines 596-601 reset it only from HalfOpen). -/
theorem circuitBreaker_consecutive_claim_false :
    maxFailRun [true, false, true] < 2 ∧
    ((newCircuitBreaker 2 100).runCalls [(true, 0), (false, 1), (true, 2)]).state =
      .opened := by
  constructor
  · decide
  · rfl

/-- C3 (amended): from the initial Closed state, each failure increments a
cumulative failure counter that successes in Closed do not reset, and every
failure records LastFailureTime; the breaker stays Closed exactly while the
cumulative failure count is below maxFailures, and the call on which the
counter reaches maxFailures — whether or not the failures were consecutive
— transitions it to Open. -/
theorem circuitBreaker_opens_on_cumulative_failures
    (m rt : Int) (calls : List (Bool × Int)) (t : Int)
    (hlt : failuresIn calls < m) :
    (((newCircuitBreaker m rt).runCalls calls).state = .closed ∧
      ((newCircuitBreaker m rt).runCalls calls).failureCount = failuresIn calls) ∧
    (failuresIn calls = m - 1 →
      (((newCircuitBreaker m rt).runCalls (calls ++ [(true, t)])).state = .opened ∧
        ((newCircuitBreaker m rt).runCalls
            (calls ++ [(true, t)])).lastFailureTime = t)) := by
  obtain ⟨hs1, hs2, hs3, hs4⟩ := runCalls_closed calls (newCircuitBreaker m rt)
    (by simp [newCircuitBreaker]) (by simp [newCircuitBreaker]; omega)
  have hfc0 : ((newCircuitBreaker m rt).runCalls calls).failureCount = failuresIn calls := by
    simpa [newCircuitBreaker] using hs2
  refine ⟨⟨hs1, hfc0⟩, fun heq => ?_⟩
  rw [runCalls_append]
  set cb1 := (newCircuitBreaker m rt).runCalls calls with hcb1
  have hmax : cb1.maxFailures = m := by simpa [newCircuitBreaker] using hs3
  have hge : cb1.failureCount + 1 ≥ cb1.maxFailures := by
    rw [hfc0, heq] at *
    omega
  constructor
  · simp [CircuitBreaker.runCalls, CircuitBreaker.execute, CircuitBreaker.admitPhase,
      hs1, CircuitBreaker.settle, hge]
  · simp [CircuitBreaker.runCalls, CircuitBreaker.execute, CircuitBreaker.admitPhase,
      hs1, CircuitBreaker.settle, hge]

/-- Witness for the amended C3: with maxFailures = 2, after failure, success
the breaker is still Closed with counter 1, and a further failure at time 5
opens it and records that time. -/
theorem circuitBreaker_cumulative_witness :
    ((newCircuitBreaker 2 100).runCalls [(true, 0), (false, 1)]).state = .closed ∧
    ((newCircuitBreaker 2 100).runCalls
        [(true, 0), (false, 1), (true, 5)]).state = .opened ∧
    ((newCircuitBreaker 2 100).runCalls
        [(true, 0), (false, 1), (true, 5)]).lastFailureTime = 5 := by
  have h := circuitBreaker_opens_on_cumulative_failures 2 100 [(true, 0), (false, 1)] 5
    (by decide)
  have h2 := h.2 (by decide)
  exact ⟨h.1.1, h2.1, h2.2⟩

/-- One externally triggered transition of a circuit breaker: an Execute
call (with any function outcome at any time) or a Reset call. -/
inductive CBStep : CircuitBreaker → CircuitBreaker → Prop where
  | exec (cb : CircuitBreaker) (fnFails : Bool) (now : Int) :
      CBStep cb (cb.execute fnFails now).cb
  | resetCall (cb : CircuitBreaker) : CBStep cb cb.resetBreaker

/-- Breaker values reachable from NewCircuitBreaker m rt through any
sequence of Execute and Reset calls. -/
def CBReachable (m rt : Int) (cb : CircuitBreaker) : Prop :=
  Relation.ReflTransGen CBStep (newCircuitBreaker m rt) cb

/-- Inductive invariant: whenever the breaker is Open (and hence also when a
call has just moved it to HalfOpen), its cumulative failure count has
reached maxFailures. -/
def CBInv (cb : CircuitBreaker) : Prop :=
  cb.state = .opened → cb.maxFailures ≤ cb.failureCount

theorem cbInv_settle (cb1 : CircuitBreaker) (fnFails : Bool) (now : Int)
    (h : CBInv cb1) : CBInv (cb1.settle fnFails now) := by
  intro hopenAfter
  cases fnFails with
  | false =>
      by_cases hho : cb1.state = CircuitState.halfOpen
      · simp [CircuitBreaker.settle, hho] at hopenAfter
      · simp [CircuitBreaker.settle, hho] at hopenAfter ⊢
        exact h hopenAfter
  | true =>
      by_cases hge : cb1.maxFailures ≤ cb1.failureCount + 1
      · have hge2 : cb1.failureCount + 1 ≥ cb1.maxFailures := hge
        simp [CircuitBreaker.settle, hge2]
      · have hnot : ¬ (cb1.failureCount + 1 ≥ cb1.maxFailures) := by omega
        simp [CircuitBreaker.settle, hnot] at hopenAfter ⊢
        have := h hopenAfter
        omega

theorem cbInv_step {cb cb2 : CircuitBreaker} (hinv : CBInv cb) (hst : CBStep cb cb2) :
    CBInv cb2 := by
  cases hst with
  | exec fnFails now =>
      cases hstate : cb.state with
      | closed =>
          have hadm : cb.admitPhase now = some cb := by
            simp [CircuitBreaker.admitPhase, hstate]
          simpa [CBInv, CircuitBreaker.execute, hadm] using
            cbInv_settle cb fnFails now hinv
      | halfOpen =>
          have hadm : cb.admitPhase now = some cb := by
            simp [CircuitBreaker.admitPhase, hstate]
          simpa [CBInv, CircuitBreaker.execute, hadm] using
            cbInv_settle cb fnFails now hinv
      | opened =>
          by_cases htime : now - cb.lastFailureTime > cb.resetTimeout
          · have hadm : cb.admitPhase now = some { cb with state := .halfOpen } := by
              simp [CircuitBreaker.admitPhase, hstate, htime]
            have hinv1 : CBInv { cb with state := CircuitState.halfOpen } := by
              intro hopen
              simp at hopen
            simpa [CBInv, CircuitBreaker.execute, hadm] using
              cbInv_settle { cb with state := CircuitState.halfOpen } fnFails now hinv1
          · have hadm : cb.admitPhase now = none := by
              simp [CircuitBreaker.admitPhase, hstate, htime]
            simpa [CBInv, CircuitBreaker.execute, hadm] using hinv
  | resetCall =>
      intro hopen
      simp [CircuitBreaker.resetBreaker] at hopen

theorem cbInv_reachable {m rt : Int} {cb : CircuitBreaker}
    (hs : CBReachable m rt cb) : CBInv cb := by
  induction hs with
  | refl =>
      intro hopen
      simp [newCircuitBreaker] at hopen
  | tail _ hstep ih => exact cbInv_step ih hstep

/-- C4: for any reachable breaker in the Open state, a call arriving while
at most resetTimeout has elapsed since lastFailureTime is rejected with the
"circuit breaker is open" error, without invoking the wrapped function and
without changing the breaker; once more than resetTimeout has elapsed, the
next call first moves the breaker to HalfOpen and then invokes the
function, and from that HalfOpen probe a success resets the failure counter
and closes the breaker while a failure reopens it and refreshes
lastFailureTime to the call time. -/
theorem circuitBreaker_open_behavior (m rt : Int) (cb : CircuitBreaker)
    (hreach : CBReachable m rt cb) (now : Int) :
    (cb.state = .opened → now - cb.lastFailureTime ≤ cb.resetTimeout →
      ∀ fnFails, cb.execute fnFails now = ⟨cb, false, .circuitOpenErr⟩) ∧
    (cb.state = .opened → cb.resetTimeout < now - cb.lastFailureTime →
      cb.admitPhase now = some { cb with state := .halfOpen } ∧
      (∀ fnFails, (cb.execute fnFails now).invoked = true) ∧
      ((cb.execute false now).cb.state = .closed ∧
        (cb.execute false now).cb.failureCount = 0) ∧
      ((cb.execute true now).cb.state = .opened ∧
        (cb.execute true now).cb.lastFailureTime = now)) := by
  constructor
  · intro hstate htime fnFails
    have hnot : ¬ (now - cb.lastFailureTime > cb.resetTimeout) := by omega
    have hadm : cb.admitPhase now = none := by
      simp [CircuitBreaker.admitPhase, hstate, hnot]
    simp [CircuitBreaker.execute, hadm]
  · intro hstate htime
    have hadm : cb.admitPhase now = some { cb with state := .halfOpen } := by
      simp [CircuitBreaker.admitPhase, hstate, htime]
    have hfc : cb.maxFailures ≤ cb.failureCount := cbInv_reachable hreach hstate
    refine ⟨hadm, ?_, ?_, ?_⟩
    · intro fnFails
      simp [CircuitBreaker.execute, hadm]
    · simp [CircuitBreaker.execute, hadm, CircuitBreaker.settle]
    · have hge : cb.failureCount + 1 ≥ cb.maxFailures := by omega
      simp [CircuitBreaker.execute, hadm, CircuitBreaker.settle, hge]

/-- Witness for C4 at a concrete reachable breaker: maxFailures = 1,
resetTimeout = 10; one failing call at time 0 opens the breaker; at time 5
a call is rejected unchanged, and at time 20 a failing probe reopens the
breaker with lastFailureTime 20. -/
theorem circuitBreaker_open_behavior_witness :
    (((newCircuitBreaker 1 10).execute true 0).cb.execute false 5 =
      ⟨((newCircuitBreaker 1 10).execute true 0).cb, false, .circuitOpenErr⟩) ∧
    ((((newCircuitBreaker 1 10).execute true 0).cb.execute true 20).cb.state = .opened ∧
      (((newCircuitBreaker 1 10).execute true 0).cb.execute true 20).cb.lastFailureTime =
        20) := by
  have hreach : CBReachable 1 10 ((newCircuitBreaker 1 10).execute true 0).cb :=
    Relation.ReflTransGen.single (CBStep.exec (newCircuitBreaker 1 10) true 0)
  have h5 := circuitBreaker_open_behavior 1 10 _ hreach 5
  have h20 := circuitBreaker_open_behavior 1 10 _ hreach 20
  exact ⟨h5.1 (by decide) (by decide) false, (h20.2 (by decide) (by decide)).2.2.2⟩

/-!
Worker Pool (pool.go).

Pool.Submit (lines 191-198) performs a select with a send case on the
buffered jobQueue channel and a default case returning ErrPoolFull. Go
channel semantics for that select: if the channel is closed the send case
can always proceed and its execution panics in the sending goroutine
(Go specification, Send statements); otherwise the send proceeds exactly
when the buffer holds fewer than cap elements, and the default case is
taken when the buffer is full. StopGracefully (lines 256-280) begins by
closing jobQueue (line 258). Submit runs on the caller's own goroutine —
it is not a closure handed to SafeExecutor — so no deferred recover
intercepts the panic and it propagates to the caller.

Jobs are abstract tokens (Nat).
-/

/-- Buffered Go channel of jobs: its queued elements, its capacity, and
whether close() has been called on it. -/
structure JobChan where
  buf : List Nat
  cap : Nat
  closed : Bool
deriving DecidableEq, Repr

/-- Result of a non-blocking send attempt (a send case in a select that has
a default branch). -/
inductive SendResult where
  | sent : SendResult
  | wouldBlock : SendResult
  | panicSendOnClosed : SendResult
deriving DecidableEq, Repr

/-- Non-blocking send on a buffered channel, per the Go specification: a
send on a closed channel proceeds and panics; otherwise it succeeds exactly
when buffer space remains, and the default branch fires when the buffer is
full. -/
def JobChan.trySend (c : JobChan) (j : Nat) : JobChan × SendResult :=
  if c.closed then (c, .panicSendOnClosed)
  else if c.buf.length < c.cap then ({ c with buf := c.buf ++ [j] }, .sent)
  else (c, .wouldBlock)

/-- Pool state relevant to Submit: its job queue channel (jobQueue, created
with capacity QueueSize in NewPool, line 88). -/
structure Pool where
  jobQueue : JobChan
deriving DecidableEq, Repr

/-- NewPool (lines 80-98): an empty open job queue of capacity queueSize. -/
def newPool (queueSize : Nat) : Pool :=
  ⟨⟨[], queueSize, false⟩⟩

/-- Outcome of Pool.Submit as seen by the caller. -/
inductive SubmitOutcome where
  | accepted : SubmitOutcome
  | rejectedPoolFull : SubmitOutcome
  | panicked : SubmitOutcome
deriving DecidableEq, Repr

/-- Pool.Submit (lines 191-198): select with a send case on jobQueue
(returning nil) and a default case (returning ErrPoolFull). A send on a
closed queue panics in the caller's goroutine. -/
def Pool.submit (p : Pool) (j : Nat) : Pool × SubmitOutcome :=
  match (p.jobQueue.trySend j) with
  | (c2, .sent) => (⟨c2⟩, .accepted)
  | (c2, .wouldBlock) => (⟨c2⟩, .rejectedPoolFull)
  | (c2, .panicSendOnClosed) => (⟨c2⟩, .panicked)

/-- Effect of Pool.StopGracefully on the job queue: close(p.jobQueue)
(line 258). The later draining, the quit signal and the grace sleeps do not
touch the queue channel state that Submit observes. -/
def Pool.stopGracefully (p : Pool) : Pool :=
  ⟨{ p.jobQueue with closed := true }⟩

/-- C5: on a running pool (queue not closed), Submit is non-blocking: while
the queue holds fewer than QueueSize jobs the job is appended and Submit
returns nil, and when the queue already holds QueueSize (or more) jobs it
returns ErrPoolFull at once, enqueuing nothing and leaving the pool
unchanged. -/
theorem pool_submit_nonblocking (p : Pool) (j : Nat)
    (hopen : p.jobQueue.closed = false) :
    (p.jobQueue.buf.length < p.jobQueue.cap →
      p.submit j =
        (⟨{ p.jobQueue with buf := p.jobQueue.buf ++ [j] }⟩, .accepted)) ∧
    (p.jobQueue.cap ≤ p.jobQueue.buf.length →
      p.submit j = (p, .rejectedPoolFull)) := by
  constructor
  · intro hlt
    simp [Pool.submit, JobChan.trySend, hopen, hlt]
  · intro hge
    have hnot : ¬ (p.jobQueue.buf.length < p.jobQueue.cap) := by omega
    simp [Pool.submit, JobChan.trySend, hopen, hnot]

/-- Witness for C5: a pool of capacity 2 accepts a job into its empty
queue, and a pool whose queue holds 2 jobs rejects with ErrPoolFull. -/
theorem pool_submit_nonblocking_witness :
    (newPool 2).submit 7 = (⟨⟨[7], 2, false⟩⟩, .accepted) ∧
    (⟨⟨[4, 5], 2, false⟩⟩ : Pool).submit 7 = (⟨⟨[4, 5], 2, false⟩⟩, .rejectedPoolFull) := by
  constructor
  · have h := (pool_submit_nonblocking (newPool 2) 7 rfl).1 (by decide)
    simpa [newPool] using h
  · exact (pool_submit_nonblocking ⟨⟨[4, 5], 2, false⟩⟩ 7 rfl).2 (by decide)

/-- C10: after StopGracefully has closed the job queue, every Submit call
panics in the calling goroutine — it returns neither nil nor ErrPoolFull —
and, because Submit does not run inside an executor-spawned goroutine with
a deferred recover, the panic propagates to the caller. -/
theorem pool_submit_after_stop_panics (p : Pool) (j : Nat) :
    ((p.stopGracefully).submit j).2 = .panicked ∧
    ((p.stopGracefully).submit j).2 ≠ .rejectedPoolFull ∧
    ((p.stopGracefully).submit j).2 ≠ .accepted ∧
    (∀ v, propagationAfterDefer (some v) false = some v) := by
  refine ⟨?_, ?_, ?_, fun v => rfl⟩ <;>
    simp [Pool.submit, Pool.stopGracefully, JobChan.trySend]

/-!
Pool job statistics (Pool.executeJob, pool.go lines 155-188).

After a job finishes, under the stats lock, CompletedJobs or FailedJobs is
incremented first; then totalJobs is read as CompletedJobs + FailedJobs —
already including the job just recorded — and AverageJobTime becomes
(AverageJobTime*totalJobs + jobTime) / (totalJobs + 1) in Go integer
(time.Duration) arithmetic. Durations are nonnegative, modelled as Nat,
where Go truncated division agrees with Nat division.
-/

/-- Fields of PoolStats touched by the per-job statistics update. -/
structure PoolJobStats where
  completedJobs : Nat
  failedJobs : Nat
  averageJobTime : Nat
deriving DecidableEq, Repr

/-- Statistics update at the end of Pool.executeJob (lines 170-186):
jobFailed says whether job.Execute returned a non-nil error, jobTime is
time.Since(startTime). -/
def updateJobStats (s : PoolJobStats) (jobFailed : Bool) (jobTime : Nat) : PoolJobStats :=
  let completed := if jobFailed then s.completedJobs else s.completedJobs + 1
  let failed := if jobFailed then s.failedJobs + 1 else s.failedJobs
  let totalJobs := completed + failed
  let avg :=
    if 0 < totalJobs then (s.averageJobTime * totalJobs + jobTime) / (totalJobs + 1)
    else s.averageJobTime
  ⟨completed, failed, avg⟩

/-- Counterexample to C6: for the very first job (n = 0 prior jobs, prior
average 0) of duration 2, the claimed update (avg*n + new)/(n+1) gives 2,
but the code divides by totalJobs + 1 where totalJobs already includes the
new job, giving (0*1 + 2)/2 = 1. -/
theorem averageJobTime_claim_false :
    (updateJobStats ⟨0, 0, 0⟩ false 2).averageJobTime ≠ (0 * 0 + 2) / (0 + 1) := by
  decide

/-- C6 (amended): after each job finishes, with n the number of jobs that
had been recorded before it, AverageJobTime becomes
(avg*(n+1) + new) / (n+2) in truncating integer arithmetic — the old
average is weighted by the post-increment job count n+1, not by n. -/
theorem averageJobTime_update (s : PoolJobStats) (jobFailed : Bool) (jobTime : Nat) :
    (updateJobStats s jobFailed jobTime).averageJobTime =
      (s.averageJobTime * (s.completedJobs + s.failedJobs + 1) + jobTime) /
        (s.completedJobs + s.failedJobs + 2) := by
  cases jobFailed <;>
    simp [updateJobStats] <;>
    ring_nf

/-!
Retry with backoff (basic_example.go, lines 427-527).

Retry.Execute (lines 497-516) loops attempt = 0 .. maxAttempts-1: it calls
fn; a nil result returns nil immediately; otherwise it remembers the error
and, when further attempts remain, sleeps backoff.GetDelay(attempt). After
the loop it returns fmt.Errorf wrapping the last error and naming the
attempt count. fn is modelled by the error value (none = success) its i-th
invocation returns; the trace records the number of invocations and the
sequence of sleeps performed.
-/

/-- Value returned by Retry.Execute: nil, or the wrapper error carrying the
attempt count and the last underlying failure. -/
inductive RetryRes where
  | success : RetryRes
  | exhausted : Nat → Option Nat → RetryRes
deriving DecidableEq, Repr

/-- Trace of one Retry.Execute run: the returned value, how many times fn
was invoked, and the delays slept between consecutive attempts in order. -/
structure RetryTrace where
  res : RetryRes
  calls : Nat
  sleeps : List Nat
deriving DecidableEq, Repr

/-- Loop of Retry.Execute from a given attempt index with the remembered
last error (lines 500-513). -/
def retryGo (fn : Nat → Option Nat) (backoff : Nat → Nat) (maxAttempts attempt : Nat)
    (lastErr : Option Nat) : RetryTrace :=
  if _h : attempt < maxAttempts then
    match fn attempt with
    | none => ⟨.success, 1, []⟩
    | some e =>
        if attempt < maxAttempts - 1 then
          let t := retryGo fn backoff maxAttempts (attempt + 1) (some e)
          ⟨t.res, t.calls + 1, backoff attempt :: t.sleeps⟩
        else
          ⟨.exhausted maxAttempts (some e), 1, []⟩
  else
    ⟨.exhausted maxAttempts lastErr, 0, []⟩
termination_by maxAttempts - attempt
decreasing_by omega

/-- Retry.Execute (lines 497-516). -/
def retryExecute (fn : Nat → Option Nat) (backoff : Nat → Nat) (maxAttempts : Nat) :
    RetryTrace :=
  retryGo fn backoff maxAttempts 0 none

/-- Unfolding lemma for retryGo on always-failing segments. -/
theorem retryGo_allFail (fn : Nat → Option Nat) (backoff : Nat → Nat) (N a : Nat)
    (lastErr : Option Nat) (ha : a < N)
    (hfail : ∀ i, a ≤ i → i < N → (fn i).isSome) :
    retryGo fn backoff N a lastErr =
      ⟨.exhausted N (fn (N - 1)), N - a, (List.range' a (N - 1 - a)).map backoff⟩ := by
  obtain ⟨e, he⟩ := Option.isSome_iff_exists.mp (hfail a le_rfl ha)
  by_cases hlt : a < N - 1
  · have hrec := retryGo_allFail fn backoff N (a + 1) (some e) (by omega)
      (fun i h1 h2 => hfail i (by omega) h2)
    rw [retryGo]
    simp only [ha, dif_pos, he]
    rw [if_pos hlt, hrec]
    have hr : N - 1 - a = (N - 1 - (a + 1)) + 1 := by omega
    have hcalls : N - (a + 1) + 1 = N - a := by omega
    simp [hr, List.range'_succ, hcalls]
  · have haN : a = N - 1 := by omega
    rw [retryGo]
    simp only [ha, dif_pos, he]
    rw [if_neg hlt]
    have h1 : N - a = 1 := by omega
    have h2 : N - 1 - a = 0 := by omega
    rw [haN] at he
    simp [h1, h2, he]
termination_by N - a
decreasing_by omega

/-- Unfolding lemma for retryGo when the attempt with index k is the first
one (at or after a) to succeed. -/
theorem retryGo_firstSuccess (fn : Nat → Option Nat) (backoff : Nat → Nat) (N a k : Nat)
    (lastErr : Option Nat) (hak : a ≤ k) (hkN : k < N) (hnone : fn k = none)
    (hfail : ∀ i, a ≤ i → i < k → (fn i).isSome) :
    retryGo fn backoff N a lastErr =
      ⟨.success, k - a + 1, (List.range' a (k - a)).map backoff⟩ := by
  have haN : a < N := by omega
  by_cases hk : a = k
  · rw [retryGo]
    subst hk
    simp [haN, hnone]
  · have hNak : a < k := by omega
    obtain ⟨e, he⟩ := Option.isSome_iff_exists.mp (hfail a le_rfl hNak)
    have hrec := retryGo_firstSuccess fn backoff N (a + 1) k (some e) (by omega) hkN hnone
      (fun i h1 h2 => hfail i (by omega) h2)
    rw [retryGo]
    simp only [haN, dif_pos, he]
    rw [if_pos (by omega : a < N - 1), hrec]
    have hr : k - a = (k - (a + 1)) + 1 := by omega
    have hcalls : k - (a + 1) + 1 + 1 = k - a + 1 := by omega
    simp [hr, List.range'_succ, hcalls]
termination_by k - a
decreasing_by omega

/-- C7: if every attempt fails, Retry.Execute with maxAttempts = N invokes
fn exactly N times, sleeps backoff.GetDelay(attempt) between consecutive
attempts (attempts 0 through N-2), and returns the wrapper error carrying
the attempt count N and the last failure; and if the attempts up to index k
fail and attempt k succeeds (k < N), it returns nil immediately after k+1
invocations. -/
theorem retry_execute_spec (fn : Nat → Option Nat) (backoff : Nat → Nat) (N : Nat)
    (hN : 1 ≤ N) :
    ((∀ i, i < N → fn i ≠ none) →
      retryExecute fn backoff N =
        ⟨.exhausted N (fn (N - 1)), N, (List.range (N - 1)).map backoff⟩) ∧
    (∀ k, k < N → fn k = none → (∀ i, i < k → fn i ≠ none) →
      retryExecute fn backoff N =
        ⟨.success, k + 1, (List.range k).map backoff⟩) := by
  constructor
  · intro hfail
    have h := retryGo_allFail fn backoff N 0 none (by omega)
      (fun i _ h2 => Option.isSome_iff_ne_none.mpr (hfail i h2))
    simpa [retryExecute, List.range_eq_range'] using h
  · intro k hkN hnone hfail
    have h := retryGo_firstSuccess fn backoff N 0 k none (by omega) hkN hnone
      (fun i _ h2 => Option.isSome_iff_ne_none.mpr (hfail i h2))
    simpa [retryExecute, List.range_eq_range'] using h

/-- Witness for C7: three always-failing attempts with error value 9 and a
linear backoff yield three invocations, sleeps of 1 and 2, and the wrapper
error naming 3 attempts; and a function succeeding on its first attempt
returns nil after one invocation. -/
theorem retry_execute_spec_witness :
    retryExecute (fun _ => some 9) (fun a => a + 1) 3 =
      ⟨.exhausted 3 (some 9), 3, [1, 2]⟩ ∧
    retryExecute (fun _ => none) (fun a => a + 1) 3 = ⟨.success, 1, []⟩ := by
  constructor
  · have h := (retry_execute_spec (fun _ => some 9) (fun a => a + 1) 3 (by omega)).1
      (fun i _ => by simp)
    simpa using h
  · have h := (retry_execute_spec (fun _ => none) (fun a => a + 1) 3 (by omega)).2 0
      (by omega) rfl (fun i hi => by omega)
    simpa using h

/-!
Backoff strategies (basic_example.go, lines 440-478). Delays are
nonnegative durations, modelled as Nat.
-/

/-- FixedBackoff (lines 441-447). -/
structure FixedBackoff where
  delay : Nat
deriving DecidableEq, Repr

/-- FixedBackoff.GetDelay (lines 445-447). -/
def FixedBackoff.getDelay (b : FixedBackoff) (_attempt : Nat) : Nat := b.delay

/-- LinearBackoff (lines 467-470). -/
structure LinearBackoff where
  baseDelay : Nat
  maxDelay : Nat
deriving DecidableEq, Repr

/-- LinearBackoff.GetDelay (lines 472-478). -/
def LinearBackoff.getDelay (b : LinearBackoff) (attempt : Nat) : Nat :=
  let delay := b.baseDelay * (attempt + 1)
  if delay > b.maxDelay then b.maxDelay else delay

/-- ExponentialBackoff (lines 450-453). -/
structure ExponentialBackoff where
  baseDelay : Nat
  maxDelay : Nat
deriving DecidableEq, Repr

/-- Doubling loop of ExponentialBackoff.GetDelay (lines 457-462): the first
argument is the remaining iteration count, each iteration doubles the delay
and clamps it to maxDelay. -/
def expLoop (maxDelay : Nat) : Nat → Nat → Nat
  | 0, delay => delay
  | n + 1, delay =>
      expLoop maxDelay n (if delay * 2 > maxDelay then maxDelay else delay * 2)

/-- ExponentialBackoff.GetDelay (lines 455-464). -/
def ExponentialBackoff.getDelay (b : ExponentialBackoff) (attempt : Nat) : Nat :=
  expLoop b.maxDelay attempt b.baseDelay

/-- Clamping commutes with the doubling step. -/
theorem expLoop_min (maxDelay : Nat) (n x : Nat) :
    expLoop maxDelay n (min x maxDelay) = min (x * 2 ^ n) maxDelay := by
  induction n generalizing x with
  | zero => simp [expLoop]
  | succ n ih =>
      have hstep :
          (if (min x maxDelay) * 2 > maxDelay then maxDelay else (min x maxDelay) * 2) =
            min (x * 2) maxDelay := by
        rcases Nat.le_total x maxDelay with hx | hx
        · rw [min_eq_left hx]
          by_cases h2 : x * 2 > maxDelay
          · rw [if_pos h2, min_eq_right (by omega)]
          · rw [if_neg h2, min_eq_left (by omega)]
        · rw [min_eq_right hx]
          by_cases h2 : maxDelay * 2 > maxDelay
          · rw [if_pos h2, min_eq_right (by omega)]
          · rw [if_neg h2]
            have hz : maxDelay = 0 := by omega
            simp [hz]
      calc expLoop maxDelay (n + 1) (min x maxDelay)
          = expLoop maxDelay n (min (x * 2) maxDelay) := by rw [expLoop, hstep]
        _ = min (x * 2 * 2 ^ n) maxDelay := ih (x * 2)
        _ = min (x * 2 ^ (n + 1)) maxDelay := by ring_nf

/-- Counterexample to C8: with baseDelay 10 and maxDelay 5, the exponential
strategy returns 10 at attempt 0 — the loop body that applies the cap never
runs — while the claimed formula min(base * 2^attempt, maxDelay) gives 5. -/
theorem exponential_cap_claim_false :
    ExponentialBackoff.getDelay ⟨10, 5⟩ 0 ≠ min (10 * 2 ^ 0) 5 := by
  decide

/-- C8 (amended): each strategy is a pure function of the attempt index;
FixedBackoff.GetDelay is the constant Delay; LinearBackoff.GetDelay equals
min(base*(attempt+1), maxDelay); ExponentialBackoff.GetDelay equals
min(base*2^attempt, maxDelay) for every attempt >= 1, but at attempt 0 it
returns base with no cap applied. -/
theorem backoff_delays (fb : FixedBackoff) (lb : LinearBackoff) (eb : ExponentialBackoff)
    (attempt : Nat) :
    fb.getDelay attempt = fb.delay ∧
    lb.getDelay attempt = min (lb.baseDelay * (attempt + 1)) lb.maxDelay ∧
    eb.getDelay 0 = eb.baseDelay ∧
    (1 ≤ attempt → eb.getDelay attempt = min (eb.baseDelay * 2 ^ attempt) eb.maxDelay) := by
  refine ⟨rfl, ?_, rfl, ?_⟩
  · rw [LinearBackoff.getDelay]
    rcases Nat.le_total (lb.baseDelay * (attempt + 1)) lb.maxDelay with hx | hx
    · rw [min_eq_left hx]
      simp
      omega
    · rw [min_eq_right hx]
      by_cases hgt : lb.baseDelay * (attempt + 1) > lb.maxDelay
      · simp [hgt]
      · simp [hgt]
        omega
  · intro h1
    obtain ⟨n, rfl⟩ : ∃ n, attempt = n + 1 := ⟨attempt - 1, by omega⟩
    rw [ExponentialBackoff.getDelay, expLoop]
    have hstep :
        (if eb.baseDelay * 2 > eb.maxDelay then eb.maxDelay else eb.baseDelay * 2) =
          min (eb.baseDelay * 2) eb.maxDelay := by
      by_cases h2 : eb.baseDelay * 2 > eb.maxDelay
      · rw [if_pos h2, min_eq_right (by omega)]
      · rw [if_neg h2, min_eq_left (by omega)]
    rw [hstep, expLoop_min]
    congr 1
    ring

/-- Witness for C8 (amended): at attempt 1 the exponential strategy with
base 10 and cap 5 returns min(10*2, 5) = 5. -/
theorem backoff_delays_witness :
    ExponentialBackoff.getDelay ⟨10, 5⟩ 1 = min (10 * 2 ^ 1) 5 := by
  exact (backoff_delays ⟨0⟩ ⟨0, 0⟩ ⟨10, 5⟩ 1).2.2.2 (by omega)

/-!
RateLimiter (basic_example.go, lines 630-698).

NewRateLimiter creates a token channel of capacity limit and fills it with
limit tokens before returning; the refill goroutine adds one token per tick
of a ticker with period interval/limit, dropping the token when the channel
is full. Allow (lines 674-681) is a select with a receive case (returning
true) and a default case (returning false). Before any tick fires, the
channel simply holds its initial limit tokens; the state is the pair
(limit, tokens currently buffered).
-/

/-- RateLimiter state: the configured limit and the tokens currently
buffered in the channel. -/
structure RateLimiter where
  limit : Nat
  tokens : Nat
deriving DecidableEq, Repr

/-- NewRateLimiter (lines 641-671) filling the channel with limit tokens. -/
def newRateLimiter (limit : Nat) : RateLimiter := ⟨limit, limit⟩

/-- RateLimiter.Allow (lines 674-681): non-blocking receive; true and one
token consumed when a token is buffered, false otherwise. -/
def RateLimiter.allow (rl : RateLimiter) : Bool × RateLimiter :=
  if 0 < rl.tokens then (true, ⟨rl.limit, rl.tokens - 1⟩) else (false, rl)

/-- One tick of the refill goroutine (lines 660-668): add a token unless
the channel already holds limit tokens. -/
def RateLimiter.refillTick (rl : RateLimiter) : RateLimiter :=
  if rl.tokens < rl.limit then ⟨rl.limit, rl.tokens + 1⟩ else rl

/-- Results of n consecutive Allow calls. -/
def RateLimiter.allowRun (rl : RateLimiter) : Nat → List Bool
  | 0 => []
  | n + 1 =>
      let p := rl.allow
      p.1 :: (p.2).allowRun n

theorem allowRun_tokens (limit : Nat) (n : Nat) :
    ∀ t, (⟨limit, t⟩ : RateLimiter).allowRun n =
      List.replicate (min n t) true ++ List.replicate (n - t) false := by
  induction n with
  | zero => intro t; simp [RateLimiter.allowRun]
  | succ n ih =>
      intro t
      cases t with
      | zero =>
          have hrun : (⟨limit, 0⟩ : RateLimiter).allowRun (n + 1) =
              false :: (⟨limit, 0⟩ : RateLimiter).allowRun n := by
            simp [RateLimiter.allowRun, RateLimiter.allow]
          rw [hrun, ih 0]
          simp [List.replicate_succ]
      | succ t =>
          have hrun : (⟨limit, t + 1⟩ : RateLimiter).allowRun (n + 1) =
              true :: (⟨limit, t⟩ : RateLimiter).allowRun n := by
            simp [RateLimiter.allowRun, RateLimiter.allow]
          rw [hrun, ih t]
          have hmin : min (n + 1) (t + 1) = min n t + 1 := by omega
          have hsub : n + 1 - (t + 1) = n - t := by omega
          rw [hmin, hsub, List.replicate_succ]
          simp

/-- C9: a fresh RateLimiter holds exactly limit tokens, so before any
refill tick the first limit Allow calls return true and every further call
returns false; with limit = 3, five immediate Allow calls yield
true, true, true, false, false. -/
theorem rateLimiter_initial_burst (limit n : Nat) :
    (newRateLimiter limit).allowRun n =
      List.replicate (min n limit) true ++ List.replicate (n - limit) false ∧
    (newRateLimiter 3).allowRun 5 = [true, true, true, false, false] := by
  constructor
  · exact allowRun_tokens limit n limit
  · decide
